import Mathlib

/-!
# Verification of the tcpkali engine core (`tcpkali_engine.c`)

A shallow embedding of the connection-generation and data-pumping core:
per-worker loop arguments, remote-address health tracking, the round-robin
address-selection scan, the payload chunk computation, and the event
handlers (`control_cb`, `start_new_connection`, `connection_cb`) as pure
state-transition functions.  Machine integers are modelled as `Nat`/`Int`;
the 32-bit `unsigned int` address-selection cursor wraps explicitly
modulo `2^32`.
-/

namespace Tcpkali

/-- A byte value (`char` on the control channel, payload bytes). -/
abbrev Byte := Nat

/-- Wrap-around bound of the C `unsigned int` cursor `address_offset`. -/
def U32 : Nat := 4294967296

/-- `struct remote_stats`: per-thread, per-address health counters. -/
structure RemoteStats where
  connection_attempts : Nat
  connection_failures : Nat
deriving Repr, DecidableEq, Inhabited

/-- `struct connection`: write cursor, bytes sent, back-reference to the
remote-stats entry (modelled as the entry's index in the table). -/
structure Conn where
  write_offset : Nat
  data_transmitted : Nat
  remote_index : Nat
deriving Repr, DecidableEq, Inhabited

/-- `struct loop_arguments`: one worker's state.  The address pool itself is
abstracted to its length `n_addrs`; `control_active` models whether the
control-pipe watcher is still started (`ev_io_stop` clears it); the
`THREAD_TERMINATING` bit of `thread_flags` is the Boolean
`thread_flags_terminating`. -/
structure LoopArguments where
  n_addrs : Nat
  sample_data : List Byte
  sample_data_size : Nat
  remote_stats : List RemoteStats
  address_offset : Nat
  control_active : Bool
  thread_flags_terminating : Bool
  open_connections : Int
  total_data_transmitted : Nat
deriving Repr, DecidableEq

/-- Read `remote_stats[i]` (total lookup; all uses keep `i` in range). -/
def statAt (stats : List RemoteStats) (i : Nat) : RemoteStats :=
  stats.getD i ⟨0, 0⟩

/-- The skip test of `pick_remote_address`:
`rs->connection_attempts > 10 && rs->connection_failures == rs->connection_attempts`. -/
def skipEligible (rs : RemoteStats) : Bool :=
  decide (10 < rs.connection_attempts) &&
    decide (rs.connection_failures = rs.connection_attempts)

/-- The scan loop of `pick_remote_address`:
`for(attempts = 0; attempts < n_addrs; attempts++) { off = address_offset++ % n_addrs; ... }`.
`fuel` is the number of loop iterations still allowed; each iteration reads
`off` from the 32-bit cursor and post-increments the cursor modulo `2^32`.
A skip-eligible candidate is skipped (`continue`) unless it was the last
permitted iteration; a non-eligible candidate breaks the loop.
Returns `(off, new cursor)`. -/
def pickScan (stats : List RemoteStats) (n : Nat) (cursor fuel : Nat) : Nat × Nat :=
  match fuel with
  | 0 => (0, cursor)
  | fuel' + 1 =>
    let off := cursor % U32 % n
    let cursor' := (cursor + 1) % U32
    if skipEligible (statAt stats off) = true ∧ fuel' ≠ 0 then
      pickScan stats n cursor' fuel'
    else
      (off, cursor')

/-- `pick_remote_address`: scan at most `n` candidates starting at the
cursor.  Returns the chosen table index and the advanced cursor. -/
def pick_remote_address (stats : List RemoteStats) (n : Nat) (cursor : Nat) : Nat × Nat :=
  pickScan stats n cursor n

/-- The table index probed at step `k` of the scan that starts with 32-bit
cursor value `c`. -/
def probe (c n k : Nat) : Nat := (c + k) % U32 % n

/-- `largest_contiguous_chunk`: given the payload size and the connection's
current offset, return `(position, available_length, new offset)`.  When
`size - current_offset` is zero the cursor wraps to `0` and the whole
buffer is offered. -/
def largest_contiguous_chunk (size current_offset : Nat) : Nat × Nat × Nat :=
  let available := size - current_offset
  if available ≠ 0 then
    (current_offset, available, current_offset)
  else
    (0, size, 0)

/-! ## The write path around `largest_contiguous_chunk`

`connection_cb`'s success branch computes a chunk, writes some prefix of it
(`write` returns `wrote ≤ available_length`) and advances
`conn->write_offset` by `wrote`.  `writeTrace` iterates that step over a
list of write lengths, collecting the bytes put on the wire. -/

/-- One chunk-compute-then-write step: returns the bytes written and the new
`write_offset`, for a write of `w` bytes against the computed chunk. -/
def writeStep (data : List Byte) (off w : Nat) : List Byte × Nat :=
  let r := largest_contiguous_chunk data.length off
  ((data.drop r.1).take w, r.2.2 + w)

/-- Iterated write steps over a list of write lengths, from offset `off`;
returns the concatenated wire bytes and the final offset. -/
def writeTrace (data : List Byte) (off : Nat) : List Nat → List Byte × Nat
  | [] => ([], off)
  | w :: ws =>
    let s := writeStep data off w
    let rest := writeTrace data s.2 ws
    (s.1 ++ rest.1, rest.2)

/-- A write sequence is valid when every write length is at most the
`available_length` the chunk computation offered at that point (the
contract of `write(2)`). -/
def validWrites (data : List Byte) (off : Nat) : List Nat → Bool
  | [] => true
  | w :: ws =>
    decide (w ≤ (largest_contiguous_chunk data.length off).2.1) &&
      validWrites data (writeStep data off w).2 ws

/-- Byte `i` of the payload repeated without bound. -/
def streamByte (data : List Byte) (i : Nat) : Byte :=
  data.getD (i % data.length) 0

/-- The first `t` bytes of the payload repeated without bound. -/
def repeatedPrefix (data : List Byte) (t : Nat) : List Byte :=
  (List.range t).map (streamByte data)

/-! ## Event handlers as state transitions

The environment-determined outcomes of the syscalls (`socket`, `connect`,
`read`, `write`) are inputs to the transition functions; externally visible
effects other than state updates (logging, `exit`, `close`, watcher
registration) are reported as `Action`s, and the bytes passed to a
successful `write` are returned separately. -/

/-- The `errno` values the engine distinguishes. -/
inductive Errno where
  | ENFILE
  | EPIPE
  | EINPROGRESS
  | other (code : Nat)
deriving Repr, DecidableEq

/-- Outcome of `socket(2)`. -/
inductive SocketResult where
  | ok
  | error (e : Errno)
deriving Repr, DecidableEq

/-- Outcome of the non-blocking `connect(2)`. -/
inductive ConnectResult where
  | success
  | error (e : Errno)
deriving Repr, DecidableEq

/-- Outcome of `write(2)`: number of bytes written, or `-1` with an errno. -/
inductive WriteResult where
  | wrote (w : Nat)
  | error (e : Errno)
deriving Repr, DecidableEq

/-- Outcome of the 1-byte `read` on the control pipe. -/
inductive ReadResult where
  | byte (c : Byte)
  | failure
deriving Repr, DecidableEq

/-- Externally visible effects of the handlers. -/
inductive Action where
  | logFdLimit
  | exitProcess (code : Nat)
  | logFirstFailure (idx : Nat)
  | closeSocket
  | registerWatcher
  | logPeerClosed
  | closeConnection
  | logUnknownCommand
  | logReadError
deriving Repr, DecidableEq

/-- `remote_stats[i].connection_attempts++`. -/
def bumpAttempts (stats : List RemoteStats) (i : Nat) : List RemoteStats :=
  stats.set i
    { statAt stats i with
      connection_attempts := (statAt stats i).connection_attempts + 1 }

/-- `remote_stats[i].connection_failures++`. -/
def bumpFailures (stats : List RemoteStats) (i : Nat) : List RemoteStats :=
  stats.set i
    { statAt stats i with
      connection_failures := (statAt stats i).connection_failures + 1 }

/-- `start_new_connection`: pick an address, count the attempt, then branch
on the socket and connect outcomes.  Returns the new worker state, the live
connection list, and the emitted actions. -/
def start_new_connection (largs : LoopArguments) (conns : List Conn)
    (sr : SocketResult) (cr : ConnectResult) :
    LoopArguments × List Conn × List Action :=
  let p := pick_remote_address largs.remote_stats largs.n_addrs largs.address_offset
  let off := p.1
  let largs := { largs with
    address_offset := p.2
    remote_stats := bumpAttempts largs.remote_stats off }
  match sr with
  | .error .ENFILE =>
    (largs, conns, [.logFdLimit, .exitProcess 1])
  | .error _ =>
    (largs, conns, [])
  | .ok =>
    let connected :=
      ({ largs with open_connections := largs.open_connections + 1 },
       conns ++ [⟨0, 0, off⟩],
       ([.registerWatcher] : List Action))
    match cr with
    | .success => connected
    | .error .EINPROGRESS => connected
    | .error _ =>
      let stats' := bumpFailures largs.remote_stats off
      ({ largs with remote_stats := stats' },
       conns,
       (if (statAt stats' off).connection_failures = 1
        then [.logFirstFailure off] else []) ++ [.closeSocket])

/-- `connection_cb` for the watcher of connection `i`: the termination check
comes first; otherwise, on writability, one chunk is computed and one write
issued.  Returns the state, connections, actions, and wire bytes. -/
def connection_cb (largs : LoopArguments) (conns : List Conn) (i : Nat)
    (writable : Bool) (wr : WriteResult) :
    LoopArguments × List Conn × List Action × List Byte :=
  match conns[i]? with
  | none => (largs, conns, [], [])
  | some conn =>
    if largs.thread_flags_terminating then
      ({ largs with
          total_data_transmitted :=
            largs.total_data_transmitted + conn.data_transmitted
          open_connections := largs.open_connections - 1 },
       conns.eraseIdx i, [.closeConnection], [])
    else if writable then
      let ch := largest_contiguous_chunk largs.sample_data_size conn.write_offset
      -- the chunk computation writes through `&conn->write_offset`, so the
      -- wrap (size -> 0) lands in the connection before the write is issued
      let conn := { conn with write_offset := ch.2.2 }
      match wr with
      | .error .EPIPE =>
        ({ largs with
            remote_stats := bumpFailures largs.remote_stats conn.remote_index
            total_data_transmitted :=
              largs.total_data_transmitted + conn.data_transmitted
            open_connections := largs.open_connections - 1 },
         conns.eraseIdx i, [.logPeerClosed, .closeConnection], [])
      | .error _ =>
        (largs, conns.set i conn, [], [])
      | .wrote w =>
        (largs,
         conns.set i
           { conn with
             write_offset := conn.write_offset + w
             data_transmitted := conn.data_transmitted + w },
         [], (largs.sample_data.drop ch.1).take w)
    else
      (largs, conns, [], [])

/-- `control_cb`: dispatch on the byte read from the control pipe
(`'c' = 99` opens a connection, `'b' = 98` begins termination and stops the
control watcher). -/
def control_cb (largs : LoopArguments) (conns : List Conn)
    (rr : ReadResult) (sr : SocketResult) (cr : ConnectResult) :
    LoopArguments × List Conn × List Action :=
  match rr with
  | .failure => (largs, conns, [.logReadError])
  | .byte c =>
    if c = 99 then
      start_new_connection largs conns sr cr
    else if c = 98 then
      ({ largs with thread_flags_terminating := true, control_active := false },
       conns, [])
    else
      (largs, conns, [.logUnknownCommand])

/-- One readiness event dispatched by a worker's loop. -/
inductive Event where
  | control (rr : ReadResult) (sr : SocketResult) (cr : ConnectResult)
  | ready (i : Nat) (writable : Bool) (wr : WriteResult)

/-- A worker: its loop arguments and the connections whose watchers are
registered with its loop. -/
structure WorkerState where
  largs : LoopArguments
  conns : List Conn
deriving Repr, DecidableEq

/-- Dispatch one event: control events reach `control_cb` only while the
control watcher is started; connection events reach `connection_cb`. -/
def step (st : WorkerState) (e : Event) : WorkerState × List Action × List Byte :=
  match e with
  | .control rr sr cr =>
    if st.largs.control_active then
      let r := control_cb st.largs st.conns rr sr cr
      (⟨r.1, r.2.1⟩, r.2.2, [])
    else
      (st, [], [])
  | .ready i writable wr =>
    let r := connection_cb st.largs st.conns i writable wr
    (⟨r.1, r.2.1⟩, r.2.2.1, r.2.2.2)

/-- Run a worker over a sequence of events. -/
def run (st : WorkerState) : List Event → WorkerState
  | [] => st
  | e :: es => run (step st e).1 es

/-- All bytes a worker puts on the wire over a sequence of events. -/
def runOut (st : WorkerState) : List Event → List Byte
  | [] => []
  | e :: es => (step st e).2.2 ++ runOut (step st e).1 es

/-- The per-worker initialization performed by `start_engine`'s spawn loop:
`sample_data = "abc"`, `sample_data_size = 3`, a freshly zeroed stats table,
and `address_offset = thread_no`. -/
def initLoopArguments (n_addrs : Nat) (thread_no : Nat) : LoopArguments :=
  { n_addrs := n_addrs
  , sample_data := [97, 98, 99]
  , sample_data_size := 3
  , remote_stats := List.replicate n_addrs ⟨0, 0⟩
  , address_offset := thread_no
  , control_active := true
  , thread_flags_terminating := false
  , open_connections := 0
  , total_data_transmitted := 0 }

/-- A worker as it starts: initialized arguments, no connections. -/
def initWorker (n_addrs : Nat) (thread_no : Nat) : WorkerState :=
  ⟨initLoopArguments n_addrs thread_no, []⟩

/-- `start_engine`: spawn one worker per CPU, thread `n` getting
`address_offset = n`; the returned list is the spawned workers' initial
loop arguments. -/
def start_engine (n_addrs : Nat) (ncpus : Nat) : List LoopArguments :=
  (List.range ncpus).map (initLoopArguments n_addrs)

/-! ## Table and connection-count bookkeeping lemmas -/

/-- Live connections of a worker currently referencing health entry `j`. -/
def liveCount (conns : List Conn) (j : Nat) : Nat :=
  conns.countP (fun c => decide (c.remote_index = j))

/-! ## The worker health invariant -/

/-- The inductive invariant tying a stats table to the live connections:
the table has one entry per address, every live connection references a
real entry, and each entry's failures plus its live (not-yet-failed)
connections are covered by its attempts. -/
def TableOk (n : Nat) (stats : List RemoteStats) (conns : List Conn) : Prop :=
  0 < n ∧ stats.length = n ∧ (∀ c ∈ conns, c.remote_index < n) ∧
    ∀ j, (statAt stats j).connection_failures + liveCount conns j
      ≤ (statAt stats j).connection_attempts

/-- The worker invariant. -/
def Inv (st : WorkerState) : Prop :=
  TableOk st.largs.n_addrs st.largs.remote_stats st.conns

/-! ## The open-connection count invariant -/

/-- The worker's `open_connections` counter equals its number of live
(registered) connections. -/
def CountOk (st : WorkerState) : Prop :=
  st.largs.open_connections = (st.conns.length : Int)

/-- A concrete worker state used to evaluate the theorems below on small
inputs: one remote address with five attempts and two failures recorded. -/
def sampleArgs : LoopArguments :=
  { n_addrs := 1
  , sample_data := [97, 98, 99]
  , sample_data_size := 3
  , remote_stats := [⟨5, 2⟩]
  , address_offset := 0
  , control_active := true
  , thread_flags_terminating := false
  , open_connections := 0
  , total_data_transmitted := 0 }

/-- A concrete worker that has consumed a `'b'` byte: termination flag set,
control watcher stopped, one live connection with 7 bytes transmitted. -/
def sampleTermWorker : WorkerState :=
  ⟨{ sampleArgs with
      control_active := false
      thread_flags_terminating := true
      open_connections := 1 },
   [⟨1, 7, 0⟩]⟩

section PickLemmas

lemma probe_zero (c n : Nat) : probe c n 0 = c % U32 % n := by
  simp [probe]

lemma probe_succ_cursor (c n k : Nat) :
    probe ((c + 1) % U32) n k = probe c n (k + 1) := by
  unfold probe
  rw [Nat.mod_add_mod]
  ring_nf

lemma pickScan_fst_lt (stats : List RemoteStats) (n : Nat) (hn : 0 < n) :
    ∀ fuel c, (pickScan stats n c fuel).1 < n := by
  intro fuel
  induction fuel with
  | zero => intro c; simpa [pickScan] using hn
  | succ f ih =>
    intro c
    rw [pickScan]
    split
    · exact ih _
    · simpa using Nat.mod_lt _ hn

/-- If the first `j` probed candidates are skip-eligible and the `j`-th is
not, the scan stops exactly there. -/
lemma pickScan_stops_first (stats : List RemoteStats) (n : Nat) :
    ∀ fuel c j, j < fuel →
      (∀ k, k < j → skipEligible (statAt stats (probe c n k)) = true) →
      skipEligible (statAt stats (probe c n j)) = false →
      (pickScan stats n c fuel).1 = probe c n j := by
  intro fuel
  induction fuel with
  | zero => intro c j hj; omega
  | succ f ih =>
    intro c j hj hk hstop
    match j with
    | 0 =>
      rw [pickScan]
      rw [probe_zero] at hstop
      rw [if_neg]
      · simp [probe_zero]
      · rintro ⟨hs, -⟩
        rw [hstop] at hs
        cases hs
    | j' + 1 =>
      have hs0 : skipEligible (statAt stats (probe c n 0)) = true :=
        hk 0 (Nat.succ_pos j')
      have hf : f ≠ 0 := by omega
      rw [pickScan, if_pos ⟨by rwa [probe_zero] at hs0, hf⟩]
      have hk' : ∀ k, k < j' →
          skipEligible (statAt stats (probe ((c + 1) % U32) n k)) = true := by
        intro k hkj
        rw [probe_succ_cursor]
        exact hk (k + 1) (by omega)
      have hstop' :
          skipEligible (statAt stats (probe ((c + 1) % U32) n j')) = false := by
        rw [probe_succ_cursor]; exact hstop
      rw [ih _ j' (by omega) hk' hstop', probe_succ_cursor]

/-- If every probed candidate is skip-eligible, the scan returns the last
candidate scanned. -/
lemma pickScan_all_skip (stats : List RemoteStats) (n : Nat) :
    ∀ fuel c, 0 < fuel →
      (∀ k, k < fuel → skipEligible (statAt stats (probe c n k)) = true) →
      (pickScan stats n c fuel).1 = probe c n (fuel - 1) := by
  intro fuel
  induction fuel with
  | zero => intro c h; omega
  | succ f ih =>
    intro c _ hk
    match f with
    | 0 =>
      rw [pickScan, if_neg (by simp), probe_zero]
    | f' + 1 =>
      have hs0 := hk 0 (Nat.succ_pos _)
      rw [pickScan, if_pos ⟨by rwa [probe_zero] at hs0, by omega⟩]
      have hk' : ∀ k, k < f' + 1 →
          skipEligible (statAt stats (probe ((c + 1) % U32) n k)) = true := by
        intro k hkf
        rw [probe_succ_cursor]
        exact hk (k + 1) (by omega)
      rw [ih _ (Nat.succ_pos _) hk', probe_succ_cursor]
      norm_num

end PickLemmas

section WriteLemmas

lemma take_drop_eq_map (data : List Byte) (p w : Nat) (h : p + w ≤ data.length) :
    (data.drop p).take w = (List.range w).map (fun i => data.getD (p + i) 0) := by
  apply List.ext_getElem
  · simp only [List.length_take, List.length_drop, List.length_map, List.length_range]
    omega
  · intro i h1 h2
    have hi : i < w := by simpa using h2
    have hpi : p + i < data.length := by omega
    simp only [List.getElem_take, List.getElem_drop, List.getElem_map,
      List.getElem_range]
    rw [List.getD_eq_getElem data 0 hpi]

lemma streamByte_of_lt (data : List Byte) (i : Nat) (h : i < data.length) :
    streamByte data i = data.getD i 0 := by
  simp [streamByte, Nat.mod_eq_of_lt h]

lemma streamByte_add_length (data : List Byte) (i : Nat) :
    streamByte data (data.length + i) = streamByte data i := by
  simp [streamByte, Nat.add_mod_left]

/-- Core correctness of the chunked write path: from any in-range offset, a
valid write sequence puts on the wire exactly the segment of the repeated
payload that starts at the stream position equal to the offset. -/
lemma writeTrace_stream (data : List Byte) :
    ∀ (ws : List Nat) (off : Nat), off ≤ data.length →
      validWrites data off ws = true →
      (writeTrace data off ws).1
        = (List.range ws.sum).map (fun i => streamByte data (off + i)) := by
  intro ws
  induction ws with
  | nil => intro off _ _; simp [writeTrace]
  | cons w ws ih =>
    intro off hoff hv
    rw [validWrites, Bool.and_eq_true, decide_eq_true_eq] at hv
    obtain ⟨hw, hv⟩ := hv
    rcases Nat.lt_or_ge off data.length with hlt | hge
    · -- mid-buffer: chunk is `[off, data.length)`
      have hc0 : data.length - off ≠ 0 := by omega
      have hch : largest_contiguous_chunk data.length off
          = (off, data.length - off, off) := by
        simp [largest_contiguous_chunk, hc0]
      have hw' : w ≤ data.length - off := by
        simpa [hch] using hw
      have hstep : writeStep data off w = ((data.drop off).take w, off + w) := by
        simp [writeStep, hch]
      rw [writeTrace]
      rw [hstep] at hv ⊢
      simp only
      rw [ih (off + w) (by omega) hv]
      rw [take_drop_eq_map data off w (by omega)]
      rw [List.sum_cons, List.range_add, List.map_append, List.map_map]
      congr 1
      · apply List.map_congr_left
        intro i hi
        have : i < w := List.mem_range.mp hi
        rw [streamByte_of_lt data (off + i) (by omega)]
      · apply List.map_congr_left
        intro i _
        simp only [Function.comp]
        rw [Nat.add_assoc]
    · -- end of buffer: the chunk computation wraps to offset 0
      have hoff' : off = data.length := by omega
      subst hoff'
      have hch : largest_contiguous_chunk data.length data.length
          = (0, data.length, 0) := by
        simp [largest_contiguous_chunk]
      have hw' : w ≤ data.length := by simpa [hch] using hw
      have hstep : writeStep data data.length w = (data.take w, 0 + w) := by
        simp [writeStep, hch]
      rw [writeTrace]
      rw [hstep] at hv ⊢
      simp only
      rw [ih (0 + w) (by omega) hv]
      have htake : data.take w
          = (List.range w).map (fun i => data.getD (0 + i) 0) := by
        have := take_drop_eq_map data 0 w (by omega)
        simpa using this
      rw [htake]
      rw [List.sum_cons, List.range_add, List.map_append, List.map_map]
      congr 1
      · apply List.map_congr_left
        intro i hi
        have hiw : i < w := List.mem_range.mp hi
        rw [streamByte_add_length data i,
          streamByte_of_lt data i (by omega)]
        simp
      · apply List.map_congr_left
        intro i _
        simp only [Function.comp, Nat.zero_add]
        exact (streamByte_add_length data (w + i)).symm

end WriteLemmas

section TableLemmas

lemma statAt_set_self (stats : List RemoteStats) (i : Nat) (rs : RemoteStats)
    (h : i < stats.length) : statAt (stats.set i rs) i = rs := by
  unfold statAt
  rw [List.getD_eq_getElem _ _ (by simpa using h), List.getElem_set_self]

lemma statAt_set_ne (stats : List RemoteStats) (i j : Nat) (rs : RemoteStats)
    (hij : i ≠ j) : statAt (stats.set i rs) j = statAt stats j := by
  unfold statAt
  rcases Nat.lt_or_ge j stats.length with hj | hj
  · rw [List.getD_eq_getElem _ _ (by simpa using hj),
      List.getD_eq_getElem _ _ hj, List.getElem_set_ne hij]
  · rw [List.getD_eq_default _ _ (by simpa using hj),
      List.getD_eq_default _ _ hj]

lemma bumpAttempts_length (stats : List RemoteStats) (i : Nat) :
    (bumpAttempts stats i).length = stats.length :=
  List.length_set ..

lemma bumpFailures_length (stats : List RemoteStats) (i : Nat) :
    (bumpFailures stats i).length = stats.length :=
  List.length_set ..

lemma statAt_bumpAttempts_self (stats : List RemoteStats) (i : Nat)
    (h : i < stats.length) :
    (statAt (bumpAttempts stats i) i).connection_attempts
        = (statAt stats i).connection_attempts + 1 ∧
    (statAt (bumpAttempts stats i) i).connection_failures
        = (statAt stats i).connection_failures := by
  rw [bumpAttempts, statAt_set_self _ _ _ h]
  exact ⟨rfl, rfl⟩

lemma statAt_bumpAttempts_ne (stats : List RemoteStats) (i j : Nat)
    (hij : i ≠ j) : statAt (bumpAttempts stats i) j = statAt stats j :=
  statAt_set_ne _ _ _ _ hij

lemma statAt_bumpFailures_self (stats : List RemoteStats) (i : Nat)
    (h : i < stats.length) :
    (statAt (bumpFailures stats i) i).connection_attempts
        = (statAt stats i).connection_attempts ∧
    (statAt (bumpFailures stats i) i).connection_failures
        = (statAt stats i).connection_failures + 1 := by
  rw [bumpFailures, statAt_set_self _ _ _ h]
  exact ⟨rfl, rfl⟩

lemma statAt_bumpFailures_ne (stats : List RemoteStats) (i j : Nat)
    (hij : i ≠ j) : statAt (bumpFailures stats i) j = statAt stats j :=
  statAt_set_ne _ _ _ _ hij

lemma statAt_replicate_zero (n j : Nat) :
    statAt (List.replicate n (⟨0, 0⟩ : RemoteStats)) j = ⟨0, 0⟩ := by
  unfold statAt
  rcases Nat.lt_or_ge j n with hj | hj
  · rw [List.getD_eq_getElem _ _ (by simpa using hj), List.getElem_replicate]
  · exact List.getD_eq_default _ _ (by simpa using hj)

end TableLemmas

section LiveCountLemmas

lemma set_getElem_self (conns : List Conn) (i : Nat) (hi : i < conns.length) :
    conns.set i conns[i] = conns := by
  apply List.ext_getElem
  · simp [List.length_set]
  · intro j h1 h2
    by_cases hij : i = j
    · subst hij
      rw [List.getElem_set_self]
    · rw [List.getElem_set_ne hij]

lemma liveCount_nil (j : Nat) : liveCount [] j = 0 := rfl

lemma liveCount_append (l₁ l₂ : List Conn) (j : Nat) :
    liveCount (l₁ ++ l₂) j = liveCount l₁ j + liveCount l₂ j :=
  List.countP_append _ _ _

lemma liveCount_singleton (c : Conn) (j : Nat) :
    liveCount [c] j = if c.remote_index = j then 1 else 0 := by
  simp [liveCount, List.countP_cons]

lemma liveCount_eraseIdx (conns : List Conn) (i : Nat) (h : i < conns.length)
    (j : Nat) :
    liveCount conns j = liveCount (conns.eraseIdx i) j
      + (if conns[i].remote_index = j then 1 else 0) := by
  rw [List.eraseIdx_eq_take_drop_succ]
  conv_lhs => rw [← List.take_append_drop i conns, List.drop_eq_getElem_cons h]
  unfold liveCount
  rw [List.countP_append, List.countP_cons, List.countP_append]
  simp only [decide_eq_true_eq]
  omega

lemma liveCount_eraseIdx_le (conns : List Conn) (i j : Nat) :
    liveCount (conns.eraseIdx i) j ≤ liveCount conns j :=
  (List.eraseIdx_sublist conns i).countP_le _

lemma liveCount_set (conns : List Conn) (i : Nat) (c' : Conn)
    (h : i < conns.length) (j : Nat)
    (hidx : c'.remote_index = conns[i].remote_index) :
    liveCount (conns.set i c') j = liveCount conns j := by
  rw [List.set_eq_take_cons_drop _ h]
  conv_rhs => rw [← List.take_append_drop i conns, List.drop_eq_getElem_cons h]
  unfold liveCount
  rw [List.countP_append, List.countP_cons, List.countP_append, List.countP_cons]
  simp [hidx]

end LiveCountLemmas

section TableOkLemmas

lemma tableOk_attempt_only (n : Nat) (stats : List RemoteStats)
    (conns : List Conn) (off : Nat) (hoff : off < n)
    (h : TableOk n stats conns) : TableOk n (bumpAttempts stats off) conns := by
  obtain ⟨hn, hlen, hcidx, hh⟩ := h
  have hofflen : off < stats.length := by omega
  refine ⟨hn, by rw [bumpAttempts_length]; exact hlen, hcidx, ?_⟩
  intro j
  by_cases hj : off = j
  · subst hj
    obtain ⟨ha, hf⟩ := statAt_bumpAttempts_self stats off hofflen
    rw [ha, hf]
    have := hh off
    omega
  · rw [statAt_bumpAttempts_ne _ _ _ hj]
    exact hh j

lemma tableOk_attempt_alloc (n : Nat) (stats : List RemoteStats)
    (conns : List Conn) (off : Nat) (hoff : off < n)
    (h : TableOk n stats conns) :
    TableOk n (bumpAttempts stats off) (conns ++ [⟨0, 0, off⟩]) := by
  obtain ⟨hn, hlen, hcidx, hh⟩ := h
  have hofflen : off < stats.length := by omega
  refine ⟨hn, by rw [bumpAttempts_length]; exact hlen, ?_, ?_⟩
  · intro c hc
    rcases List.mem_append.mp hc with hc | hc
    · exact hcidx c hc
    · rcases List.mem_singleton.mp hc with rfl
      exact hoff
  · intro j
    rw [liveCount_append, liveCount_singleton]
    by_cases hj : off = j
    · subst hj
      obtain ⟨ha, hf⟩ := statAt_bumpAttempts_self stats off hofflen
      rw [ha, hf]
      have := hh off
      have hone : (if (⟨0, 0, off⟩ : Conn).remote_index = off then 1 else 0) = 1 :=
        if_pos rfl
      rw [hone]
      omega
    · rw [statAt_bumpAttempts_ne _ _ _ hj]
      have := hh j
      simp only [if_neg hj]
      omega

lemma tableOk_attempt_fail (n : Nat) (stats : List RemoteStats)
    (conns : List Conn) (off : Nat) (hoff : off < n)
    (h : TableOk n stats conns) :
    TableOk n (bumpFailures (bumpAttempts stats off) off) conns := by
  obtain ⟨hn, hlen, hcidx, hh⟩ := h
  have hofflen : off < stats.length := by omega
  have hofflen' : off < (bumpAttempts stats off).length := by
    rw [bumpAttempts_length]; exact hofflen
  refine ⟨hn, by rw [bumpFailures_length, bumpAttempts_length]; exact hlen,
    hcidx, ?_⟩
  intro j
  by_cases hj : off = j
  · subst hj
    obtain ⟨ha1, hf1⟩ := statAt_bumpAttempts_self stats off hofflen
    obtain ⟨ha2, hf2⟩ := statAt_bumpFailures_self (bumpAttempts stats off) off hofflen'
    rw [ha2, hf2, ha1, hf1]
    have := hh off
    omega
  · rw [statAt_bumpFailures_ne _ _ _ hj, statAt_bumpAttempts_ne _ _ _ hj]
    exact hh j

lemma tableOk_erase (n : Nat) (stats : List RemoteStats) (conns : List Conn)
    (i : Nat) (h : TableOk n stats conns) :
    TableOk n stats (conns.eraseIdx i) := by
  obtain ⟨hn, hlen, hcidx, hh⟩ := h
  refine ⟨hn, hlen, ?_, ?_⟩
  · intro c hc
    exact hcidx c ((List.eraseIdx_sublist conns i).subset hc)
  · intro j
    have := liveCount_eraseIdx_le conns i j
    have := hh j
    omega

lemma tableOk_epipe (n : Nat) (stats : List RemoteStats) (conns : List Conn)
    (i : Nat) (hi : i < conns.length) (h : TableOk n stats conns) :
    TableOk n (bumpFailures stats conns[i].remote_index) (conns.eraseIdx i) := by
  obtain ⟨hn, hlen, hcidx, hh⟩ := h
  have hj0 : conns[i].remote_index < n := hcidx _ (List.getElem_mem hi)
  have hj0len : conns[i].remote_index < stats.length := by omega
  refine ⟨hn, by rw [bumpFailures_length]; exact hlen, ?_, ?_⟩
  · intro c hc
    exact hcidx c ((List.eraseIdx_sublist conns i).subset hc)
  · intro j
    by_cases hj : conns[i].remote_index = j
    · subst hj
      obtain ⟨ha, hf⟩ := statAt_bumpFailures_self stats _ hj0len
      rw [ha, hf]
      have hsplit := liveCount_eraseIdx conns i hi conns[i].remote_index
      rw [if_pos rfl] at hsplit
      have := hh conns[i].remote_index
      omega
    · rw [statAt_bumpFailures_ne _ _ _ hj]
      have := liveCount_eraseIdx_le conns i j
      have := hh j
      omega

lemma tableOk_set (n : Nat) (stats : List RemoteStats) (conns : List Conn)
    (i : Nat) (c' : Conn) (hi : i < conns.length)
    (hidx : c'.remote_index = conns[i].remote_index)
    (h : TableOk n stats conns) : TableOk n stats (conns.set i c') := by
  obtain ⟨hn, hlen, hcidx, hh⟩ := h
  refine ⟨hn, hlen, ?_, ?_⟩
  · intro c hc
    rcases List.mem_or_eq_of_mem_set hc with hc | rfl
    · exact hcidx c hc
    · rw [hidx]
      exact hcidx _ (List.getElem_mem hi)
  · intro j
    rw [liveCount_set conns i c' hi j hidx]
    exact hh j

end TableOkLemmas

section InvPreservation

lemma inv_start_new_connection (l : LoopArguments) (cs : List Conn)
    (sr : SocketResult) (cr : ConnectResult) (h : Inv ⟨l, cs⟩) :
    Inv ⟨(start_new_connection l cs sr cr).1,
         (start_new_connection l cs sr cr).2.1⟩ := by
  have hoff : (pick_remote_address l.remote_stats l.n_addrs l.address_offset).1
      < l.n_addrs :=
    pickScan_fst_lt l.remote_stats l.n_addrs h.1 l.n_addrs l.address_offset
  cases sr with
  | error e =>
    cases e <;> exact tableOk_attempt_only _ _ _ _ hoff h
  | ok =>
    cases cr with
    | success => exact tableOk_attempt_alloc _ _ _ _ hoff h
    | error e =>
      rcases e with _ | _ | _ | code
      · exact tableOk_attempt_fail _ _ _ _ hoff h
      · exact tableOk_attempt_fail _ _ _ _ hoff h
      · exact tableOk_attempt_alloc _ _ _ _ hoff h
      · exact tableOk_attempt_fail _ _ _ _ hoff h

lemma inv_connection_cb (l : LoopArguments) (cs : List Conn) (i : Nat)
    (writable : Bool) (wr : WriteResult) (h : Inv ⟨l, cs⟩) :
    Inv ⟨(connection_cb l cs i writable wr).1,
         (connection_cb l cs i writable wr).2.1⟩ := by
  match hcv : cs[i]? with
  | none =>
    simpa [connection_cb, hcv] using h
  | some conn =>
    obtain ⟨hi, hconn⟩ := List.getElem?_eq_some.mp hcv
    by_cases hterm : l.thread_flags_terminating
    · simp only [connection_cb, hcv, hterm, if_true]
      exact tableOk_erase _ _ _ _ h
    · by_cases hwr : writable
      · cases wr with
        | wrote w =>
          simp only [connection_cb, hcv, hterm, hwr, if_false, if_true,
            Bool.false_eq_true]
          exact tableOk_set _ _ _ _ _ hi (by rw [hconn]) h
        | error e =>
          rcases e with _ | _ | _ | code
          · simp only [connection_cb, hcv, hterm, hwr, if_false, if_true,
              Bool.false_eq_true]
            exact tableOk_set _ _ _ _ _ hi (by rw [hconn]) h
          · simp only [connection_cb, hcv, hterm, hwr, if_false, if_true,
              Bool.false_eq_true]
            have := tableOk_epipe _ _ _ _ hi h
            rw [hconn] at this
            exact this
          · simp only [connection_cb, hcv, hterm, hwr, if_false, if_true,
              Bool.false_eq_true]
            exact tableOk_set _ _ _ _ _ hi (by rw [hconn]) h
          · simp only [connection_cb, hcv, hterm, hwr, if_false, if_true,
              Bool.false_eq_true]
            exact tableOk_set _ _ _ _ _ hi (by rw [hconn]) h
      · have hwr' : writable = false := by simpa using hwr
        subst hwr'
        simpa [connection_cb, hcv, hterm] using h

lemma inv_control_cb (l : LoopArguments) (cs : List Conn) (rr : ReadResult)
    (sr : SocketResult) (cr : ConnectResult) (h : Inv ⟨l, cs⟩) :
    Inv ⟨(control_cb l cs rr sr cr).1, (control_cb l cs rr sr cr).2.1⟩ := by
  cases rr with
  | failure => exact h
  | byte c =>
    by_cases hc : c = 99
    · simp only [control_cb, hc, if_true]
      exact inv_start_new_connection _ _ _ _ h
    · by_cases hb : c = 98 <;> simp only [control_cb, hc, hb, if_true, if_false] <;> exact h

lemma inv_step (st : WorkerState) (e : Event) (h : Inv st) : Inv (step st e).1 := by
  cases e with
  | control rr sr cr =>
    by_cases hca : st.largs.control_active
    · simp only [step, hca, if_true]
      exact inv_control_cb _ _ _ _ _ h
    · simpa [step, hca] using h
  | ready i writable wr =>
    exact inv_connection_cb _ _ _ _ _ h

lemma inv_run (tr : List Event) : ∀ (st : WorkerState), Inv st → Inv (run st tr) := by
  induction tr with
  | nil => intro st h; exact h
  | cons e es ih => intro st h; exact ih _ (inv_step st e h)

lemma inv_init (n t : Nat) (hn : 0 < n) : Inv (initWorker n t) := by
  refine ⟨hn, by simp [initWorker, initLoopArguments], by simp [initWorker], ?_⟩
  intro j
  show (statAt (List.replicate n ⟨0, 0⟩) j).connection_failures + liveCount [] j
      ≤ (statAt (List.replicate n ⟨0, 0⟩) j).connection_attempts
  rw [statAt_replicate_zero, liveCount_nil]

end InvPreservation

section CountOkPreservation

lemma countOk_start_new_connection (l : LoopArguments) (cs : List Conn)
    (sr : SocketResult) (cr : ConnectResult) (h : CountOk ⟨l, cs⟩) :
    CountOk ⟨(start_new_connection l cs sr cr).1,
             (start_new_connection l cs sr cr).2.1⟩ := by
  unfold CountOk at h ⊢
  have h' : l.open_connections = (cs.length : Int) := h
  have halloc :
      l.open_connections + 1
        = (((cs ++ [(⟨0, 0,
            (pick_remote_address l.remote_stats l.n_addrs l.address_offset).1⟩
              : Conn)]).length : Nat) : Int) := by
    rw [List.length_append, List.length_singleton]
    push_cast
    omega
  cases sr with
  | error e => cases e <;> exact h
  | ok =>
    cases cr with
    | success => exact halloc
    | error e =>
      rcases e with _ | _ | _ | code
      · exact h
      · exact h
      · exact halloc
      · exact h

lemma countOk_connection_cb (l : LoopArguments) (cs : List Conn) (i : Nat)
    (writable : Bool) (wr : WriteResult) (h : CountOk ⟨l, cs⟩) :
    CountOk ⟨(connection_cb l cs i writable wr).1,
             (connection_cb l cs i writable wr).2.1⟩ := by
  match hcv : cs[i]? with
  | none => simpa [connection_cb, hcv] using h
  | some conn =>
    obtain ⟨hi, hconn⟩ := List.getElem?_eq_some.mp hcv
    unfold CountOk at h
    have h' : l.open_connections = (cs.length : Int) := h
    have herase : l.open_connections - 1 = (((cs.eraseIdx i).length : Nat) : Int) := by
      rw [List.length_eraseIdx, if_pos hi]
      omega
    by_cases hterm : l.thread_flags_terminating
    · simp only [connection_cb, hcv, hterm, if_true]
      exact herase
    · by_cases hwr : writable
      · cases wr with
        | wrote w =>
          simp only [connection_cb, hcv, hterm, hwr, if_false, if_true,
            Bool.false_eq_true]
          show l.open_connections = (((cs.set i _).length : Nat) : Int)
          rw [List.length_set]
          exact h
        | error e =>
          rcases e with _ | _ | _ | code
          · simp only [connection_cb, hcv, hterm, hwr, if_false, if_true,
              Bool.false_eq_true]
            show l.open_connections = (((cs.set i _).length : Nat) : Int)
            rw [List.length_set]
            exact h
          · simp only [connection_cb, hcv, hterm, hwr, if_false, if_true,
              Bool.false_eq_true]
            exact herase
          · simp only [connection_cb, hcv, hterm, hwr, if_false, if_true,
              Bool.false_eq_true]
            show l.open_connections = (((cs.set i _).length : Nat) : Int)
            rw [List.length_set]
            exact h
          · simp only [connection_cb, hcv, hterm, hwr, if_false, if_true,
              Bool.false_eq_true]
            show l.open_connections = (((cs.set i _).length : Nat) : Int)
            rw [List.length_set]
            exact h
      · have hwr' : writable = false := by simpa using hwr
        subst hwr'
        simpa [connection_cb, hcv, hterm] using h

lemma countOk_step (st : WorkerState) (e : Event) (h : CountOk st) :
    CountOk (step st e).1 := by
  cases e with
  | control rr sr cr =>
    by_cases hca : st.largs.control_active
    · simp only [step, hca, if_true]
      cases rr with
      | failure => exact h
      | byte c =>
        by_cases hc : c = 99
        · simp only [control_cb, hc, if_true]
          exact countOk_start_new_connection _ _ _ _ h
        · by_cases hb : c = 98 <;>
            simp only [control_cb, hc, hb, if_true, if_false] <;> exact h
    · simpa [step, hca] using h
  | ready i writable wr =>
    exact countOk_connection_cb _ _ _ _ _ h

lemma countOk_run (tr : List Event) :
    ∀ (st : WorkerState), CountOk st → CountOk (run st tr) := by
  induction tr with
  | nil => intro st h; exact h
  | cons e es ih => intro st h; exact ih _ (countOk_step st e h)

lemma countOk_init (n t : Nat) : CountOk (initWorker n t) := by
  simp [CountOk, initWorker, initLoopArguments]

end CountOkPreservation

section TerminationLemmas

lemma step_terminated_silent (st : WorkerState)
    (hterm : st.largs.thread_flags_terminating = true)
    (hctl : st.largs.control_active = false) (e : Event) :
    (step st e).2.2 = [] ∧
    (step st e).1.largs.thread_flags_terminating = true ∧
    (step st e).1.largs.control_active = false := by
  cases e with
  | control rr sr cr =>
    simp [step, hctl, hterm]
  | ready i writable wr =>
    match hcv : st.conns[i]? with
    | none => simp [step, connection_cb, hcv, hterm, hctl]
    | some conn => simp [step, connection_cb, hcv, hterm, hctl]

lemma runOut_terminated (tr : List Event) :
    ∀ st : WorkerState, st.largs.thread_flags_terminating = true →
      st.largs.control_active = false → runOut st tr = [] := by
  induction tr with
  | nil => intro st _ _; rfl
  | cons e es ih =>
    intro st hterm hctl
    obtain ⟨ho, ht, hc⟩ := step_terminated_silent st hterm hctl e
    show (step st e).2.2 ++ runOut (step st e).1 es = []
    rw [ho, ih _ ht hc]
    rfl

end TerminationLemmas

/-! ## The claims -/

/-- C9: `pick_remote_address` examines at most `N` candidates and always
returns: it stops at the first probed candidate that is not skip-eligible;
when all `N` probed candidates are skip-eligible it returns the last
candidate scanned; and in every case its result is one of the `N` probes
of the bounded scan. -/
theorem pick_remote_address_bounded_scan (stats : List RemoteStats) (n c : Nat)
    (hn : 0 < n) :
    (∀ j, j < n →
        (∀ k, k < j → skipEligible (statAt stats (probe c n k)) = true) →
        skipEligible (statAt stats (probe c n j)) = false →
        (pick_remote_address stats n c).1 = probe c n j) ∧
    ((∀ k, k < n → skipEligible (statAt stats (probe c n k)) = true) →
        (pick_remote_address stats n c).1 = probe c n (n - 1)) ∧
    (∃ k, k < n ∧ (pick_remote_address stats n c).1 = probe c n k) := by
  refine ⟨?_, ?_, ?_⟩
  · intro j hj hk hstop
    exact pickScan_stops_first stats n n c j hj hk hstop
  · intro hall
    exact pickScan_all_skip stats n n c hn hall
  · by_cases hall : ∀ k, k < n → skipEligible (statAt stats (probe c n k)) = true
    · exact ⟨n - 1, by omega, pickScan_all_skip stats n n c hn hall⟩
    · push_neg at hall
      obtain ⟨k0, hk0, hk0f⟩ := hall
      have hex : ∃ k, k < n ∧ skipEligible (statAt stats (probe c n k)) = false :=
        ⟨k0, hk0, by simpa using hk0f⟩
      have hspec := Nat.find_spec hex
      have hmin : ∀ m, m < Nat.find hex →
          skipEligible (statAt stats (probe c n m)) = true := by
        intro m hm
        by_contra hms
        exact Nat.find_min hex hm ⟨lt_trans hm hspec.1, by simpa using hms⟩
      exact ⟨Nat.find hex, hspec.1,
        pickScan_stops_first stats n n c (Nat.find hex) hspec.1 hmin hspec.2⟩

/-- C9 witness: a 2-entry table in which both entries are skip-eligible; the
scan terminates after the two probes and returns the last one probed. -/
theorem pick_remote_address_bounded_scan_witness :
    0 < 2 ∧ (pick_remote_address [⟨11, 11⟩, ⟨11, 11⟩] 2 0).1 = probe 0 2 1 :=
  ⟨by decide,
   (pick_remote_address_bounded_scan [⟨11, 11⟩, ⟨11, 11⟩] 2 0 (by decide)).2.1
     (by decide)⟩

/-- C1 counterexample: the cursor is a 32-bit `unsigned int`, so with the
cursor at `2^32 - 1` and `N = 3` the three probes hit indices `0, 0, 1`
(the wrap of the cursor modulo `2^32` skips the residue `2`), and
`pick_remote_address` returns skip-eligible entry `1` even though entry `2`
is not skip-eligible. -/
theorem pick_remote_address_wrap_counterexample :
    skipEligible (statAt [⟨11, 11⟩, ⟨11, 11⟩, ⟨0, 0⟩] 2) = false ∧
    (pick_remote_address [⟨11, 11⟩, ⟨11, 11⟩, ⟨0, 0⟩] 3 4294967295).1 = 1 ∧
    skipEligible (statAt [⟨11, 11⟩, ⟨11, 11⟩, ⟨0, 0⟩] 1) = true := by
  refine ⟨by decide, ?_, by decide⟩
  decide

/-- C1 (amended): provided the `N` probes of the scan do not cross the
32-bit wrap of the cursor (`cursor + N ≤ 2^32`), `pick_remote_address`
never returns a skip-eligible entry when some entry of the table is not
skip-eligible; the scan starts at the cursor and wraps modulo `N`. -/
theorem pick_remote_address_skips_dead (stats : List RemoteStats) (n c i : Nat)
    (hn : 0 < n) (hc : c + n ≤ U32) (hi : i < n)
    (hgood : skipEligible (statAt stats i) = false) :
    skipEligible (statAt stats (pick_remote_address stats n c).1) = false := by
  -- a probe step that lands exactly on index `i`
  obtain ⟨k, hklt, hkeq⟩ : ∃ k, k < n ∧ (c % n + k) % n = i := by
    have hr : c % n < n := Nat.mod_lt _ hn
    rcases le_or_lt (c % n) i with hle | hlt
    · refine ⟨i - c % n, by omega, ?_⟩
      have hstepsum : c % n + (i - c % n) = i := by omega
      rw [hstepsum, Nat.mod_eq_of_lt hi]
    · refine ⟨n + i - c % n, by omega, ?_⟩
      have hstepsum : c % n + (n + i - c % n) = n + i := by omega
      rw [hstepsum, Nat.add_mod_left, Nat.mod_eq_of_lt hi]
  have hpk : probe c n k = i := by
    unfold probe
    rw [Nat.mod_eq_of_lt (by omega : c + k < U32), Nat.add_mod,
      Nat.mod_eq_of_lt hklt, hkeq]
  have hex : ∃ j, j < n ∧ skipEligible (statAt stats (probe c n j)) = false :=
    ⟨k, hklt, by rw [hpk]; exact hgood⟩
  have hspec := Nat.find_spec hex
  have hmin : ∀ m, m < Nat.find hex →
      skipEligible (statAt stats (probe c n m)) = true := by
    intro m hm
    by_contra hms
    exact Nat.find_min hex hm ⟨lt_trans hm hspec.1, by simpa using hms⟩
  have hres :=
    pickScan_stops_first stats n n c (Nat.find hex) hspec.1 hmin hspec.2
  show skipEligible (statAt stats (pickScan stats n c n).1) = false
  rw [hres]
  exact hspec.2

/-- C1 witness: a table whose first entry is dead and whose second is
healthy; the scan from cursor `0` avoids the dead entry. -/
theorem pick_remote_address_skips_dead_witness :
    0 < 2 ∧ 0 + 2 ≤ U32 ∧ 1 < 2 ∧
    skipEligible (statAt [⟨11, 11⟩, ⟨0, 0⟩] 1) = false ∧
    skipEligible
      (statAt [⟨11, 11⟩, ⟨0, 0⟩] (pick_remote_address [⟨11, 11⟩, ⟨0, 0⟩] 2 0).1)
        = false :=
  ⟨by decide, by decide, by decide, by decide,
   pick_remote_address_skips_dead [⟨11, 11⟩, ⟨0, 0⟩] 2 0 1 (by decide)
     (by decide) (by decide) (by decide)⟩

/-- C2: for a payload of length `L ≥ 1` and a write offset starting at `0`,
any sequence of chunk computations each followed by an offset advance by a
write length within the offered chunk produces exactly a prefix of the
payload repeated verbatim; the chunk computation at offset `L` wraps the
offset to `0` and offers the full buffer; and `connection_cb`'s successful
write branch is exactly one such chunk-compute-and-advance step. -/
theorem chunked_writes_produce_repeated_payload (data : List Byte)
    (ws : List Nat) (largs : LoopArguments) (conns : List Conn)
    (conn : Conn) (i w : Nat)
    (hd : data ≠ []) (hv : validWrites data 0 ws = true)
    (hsz : largs.sample_data_size = largs.sample_data.length)
    (hcv : conns[i]? = some conn)
    (hterm : largs.thread_flags_terminating = false) :
    (writeTrace data 0 ws).1 = repeatedPrefix data ws.sum ∧
    largest_contiguous_chunk data.length data.length = (0, data.length, 0) ∧
    connection_cb largs conns i true (WriteResult.wrote w)
      = (largs,
         conns.set i
           { conn with
             write_offset := (writeStep largs.sample_data conn.write_offset w).2
             data_transmitted := conn.data_transmitted + w },
         [], (writeStep largs.sample_data conn.write_offset w).1) := by
  refine ⟨?_, ?_, ?_⟩
  · rw [writeTrace_stream data ws 0 (Nat.zero_le _) hv]
    unfold repeatedPrefix
    apply List.map_congr_left
    intro j _
    rw [Nat.zero_add]
  · simp [largest_contiguous_chunk]
  · simp only [connection_cb, hcv, hterm, Bool.false_eq_true, if_false,
      if_true, writeStep, hsz]

/-- C2 witness: payload `"abc"`, writes chunked as `2, 1, 3, 2` starting at
offset `0` produce the first `8` bytes of `abcabc...`; evaluated alongside
one concrete `connection_cb` write step. -/
theorem chunked_writes_produce_repeated_payload_witness :
    ([97, 98, 99] : List Byte) ≠ [] ∧
    validWrites [97, 98, 99] 0 [2, 1, 3, 2] = true ∧
    sampleArgs.sample_data_size = sampleArgs.sample_data.length ∧
    ([(⟨0, 0, 0⟩ : Conn)][0]? = some ⟨0, 0, 0⟩) ∧
    sampleArgs.thread_flags_terminating = false ∧
    ((writeTrace [97, 98, 99] 0 [2, 1, 3, 2]).1
        = repeatedPrefix [97, 98, 99] (([2, 1, 3, 2] : List Nat).sum) ∧
     largest_contiguous_chunk 3 3 = (0, 3, 0) ∧
     connection_cb sampleArgs [⟨0, 0, 0⟩] 0 true (WriteResult.wrote 2)
       = (sampleArgs,
          [⟨(writeStep [97, 98, 99] 0 2).2, 0 + 2, 0⟩],
          [], (writeStep [97, 98, 99] 0 2).1)) :=
  ⟨by decide, by decide, by decide, by decide, by decide,
   chunked_writes_produce_repeated_payload [97, 98, 99] [2, 1, 3, 2]
     sampleArgs [⟨0, 0, 0⟩] ⟨0, 0, 0⟩ 0 2 (by decide) (by decide) (by decide)
     (by decide) (by decide)⟩

/-- C3 counterexample: `start_engine` takes no payload input; at two
different engine inputs every spawned worker's transmission buffer is the
same internally fixed payload `"abc"` of length `3`. -/
theorem start_engine_payload_fixed_counterexample :
    (start_engine 5 2).map (fun la => (la.sample_data, la.sample_data_size))
        = [([97, 98, 99], 3), ([97, 98, 99], 3)] ∧
    (start_engine 1 1).map (fun la => (la.sample_data, la.sample_data_size))
        = [([97, 98, 99], 3)] := by
  constructor <;> rfl

/-- C3 (amended): `start_engine` receives only the address pool as startup
input; the payload is a value fixed inside the engine: every worker it
spawns, for every engine input, is initialized with the fixed transmission
buffer `"abc"` (bytes `97, 98, 99`) of length `3`. -/
theorem start_engine_payload_fixed (n_addrs ncpus : Nat) :
    (start_engine n_addrs ncpus).map
        (fun la => (la.sample_data, la.sample_data_size))
      = List.replicate ncpus ([97, 98, 99], 3) := by
  unfold start_engine
  rw [List.map_map]
  have hconst : ((fun la : LoopArguments => (la.sample_data, la.sample_data_size))
        ∘ initLoopArguments n_addrs)
      = Function.const Nat (([97, 98, 99] : List Byte), 3) := rfl
  rw [hconst, List.map_const, List.length_range]

/-- C4: starting from `start_engine`'s per-worker initialization, after any
sequence of control and connection events — covering `pick_remote_address`,
`start_new_connection` with its connect-error branch, and `connection_cb`
with its broken-pipe branch (whose unpaired failure increment is fired at
most once per established connection, since the connection is closed by
that branch) — every health entry satisfies `failures ≤ attempts`. -/
theorem health_failures_le_attempts (n t : Nat) (hn : 0 < n) (tr : List Event)
    (j : Nat) :
    (statAt (run (initWorker n t) tr).largs.remote_stats j).connection_failures
      ≤ (statAt (run (initWorker n t) tr).largs.remote_stats j).connection_attempts := by
  have h := inv_run tr (initWorker n t) (inv_init n t hn)
  have hh := h.2.2.2 j
  omega

/-- C4 witness: two addresses, one failed connect, one established
connection that is then closed by a broken-pipe write error. -/
theorem health_failures_le_attempts_witness :
    0 < 2 ∧
    (statAt (run (initWorker 2 0)
        [Event.control (ReadResult.byte 99) SocketResult.ok
           (ConnectResult.error (Errno.other 111)),
         Event.control (ReadResult.byte 99) SocketResult.ok
           ConnectResult.success,
         Event.ready 0 true (WriteResult.error Errno.EPIPE)]).largs.remote_stats
        1).connection_failures
      ≤ (statAt (run (initWorker 2 0)
        [Event.control (ReadResult.byte 99) SocketResult.ok
           (ConnectResult.error (Errno.other 111)),
         Event.control (ReadResult.byte 99) SocketResult.ok
           ConnectResult.success,
         Event.ready 0 true (WriteResult.error Errno.EPIPE)]).largs.remote_stats
        1).connection_attempts :=
  ⟨by decide,
   health_failures_le_attempts 2 0 (by decide)
     [Event.control (ReadResult.byte 99) SocketResult.ok
        (ConnectResult.error (Errno.other 111)),
      Event.control (ReadResult.byte 99) SocketResult.ok ConnectResult.success,
      Event.ready 0 true (WriteResult.error Errno.EPIPE)] 1⟩

/-- C5: once a worker's termination flag is set and its control watcher is
stopped, no event makes it write payload bytes (over a single event and
over any event sequence), the flag and the stopped watcher persist, and a
writability event on a live connection folds that connection's transmitted
bytes into the worker aggregate, decrements the open-connection count, and
closes the connection — before any transmission; consuming a `'b'` byte is
what sets the flag and stops the watcher. -/
theorem terminated_worker_tears_down (st : WorkerState) (e : Event) (i : Nat)
    (writable : Bool) (wr : WriteResult) (tr : List Event) (st₀ : WorkerState)
    (sr₀ : SocketResult) (cr₀ : ConnectResult)
    (hterm : st.largs.thread_flags_terminating = true)
    (hctl : st.largs.control_active = false)
    (hi : i < st.conns.length)
    (hctl₀ : st₀.largs.control_active = true) :
    (step st e).2.2 = [] ∧
    (step st e).1.largs.thread_flags_terminating = true ∧
    (step st e).1.largs.control_active = false ∧
    runOut st tr = [] ∧
    (step st (Event.ready i writable wr)).1.conns = st.conns.eraseIdx i ∧
    (step st (Event.ready i writable wr)).1.largs.open_connections
      = st.largs.open_connections - 1 ∧
    (step st (Event.ready i writable wr)).1.largs.total_data_transmitted
      = st.largs.total_data_transmitted
        + (st.conns.getD i ⟨0, 0, 0⟩).data_transmitted ∧
    (step st (Event.ready i writable wr)).2.1 = [Action.closeConnection] ∧
    (step st₀ (Event.control (ReadResult.byte 98) sr₀ cr₀)).1.largs.thread_flags_terminating
      = true ∧
    (step st₀ (Event.control (ReadResult.byte 98) sr₀ cr₀)).1.largs.control_active
      = false := by
  obtain ⟨ho, ht, hc⟩ := step_terminated_silent st hterm hctl e
  have hgetElem : st.conns[i]? = some st.conns[i] := List.getElem?_eq_getElem hi
  have hgd : st.conns.getD i ⟨0, 0, 0⟩ = st.conns[i] := List.getD_eq_getElem _ _ hi
  refine ⟨ho, ht, hc, runOut_terminated tr st hterm hctl, ?_, ?_, ?_, ?_, ?_, ?_⟩
  · simp [step, connection_cb, hgetElem, hterm]
  · simp [step, connection_cb, hgetElem, hterm]
  · rw [hgd]
    simp [step, connection_cb, hgetElem, hterm]
  · simp [step, connection_cb, hgetElem, hterm]
  · simp [step, control_cb, hctl₀]
  · simp [step, control_cb, hctl₀]

/-- C5 witness: the sample terminated worker on a writability event for its
single live connection, plus a fresh worker consuming a `'b'` byte. -/
theorem terminated_worker_tears_down_witness :
    sampleTermWorker.largs.thread_flags_terminating = true ∧
    sampleTermWorker.largs.control_active = false ∧
    0 < sampleTermWorker.conns.length ∧
    (initWorker 1 0).largs.control_active = true ∧
    ((step sampleTermWorker (Event.ready 0 true (WriteResult.wrote 3))).2.2 = [] ∧
     (step sampleTermWorker (Event.ready 0 true (WriteResult.wrote 3))).1.largs.thread_flags_terminating = true ∧
     (step sampleTermWorker (Event.ready 0 true (WriteResult.wrote 3))).1.largs.control_active = false ∧
     runOut sampleTermWorker
       [Event.ready 0 true (WriteResult.wrote 3),
        Event.control (ReadResult.byte 99) SocketResult.ok ConnectResult.success] = [] ∧
     (step sampleTermWorker (Event.ready 0 true (WriteResult.wrote 3))).1.conns
       = sampleTermWorker.conns.eraseIdx 0 ∧
     (step sampleTermWorker (Event.ready 0 true (WriteResult.wrote 3))).1.largs.open_connections
       = sampleTermWorker.largs.open_connections - 1 ∧
     (step sampleTermWorker (Event.ready 0 true (WriteResult.wrote 3))).1.largs.total_data_transmitted
       = sampleTermWorker.largs.total_data_transmitted
         + (sampleTermWorker.conns.getD 0 ⟨0, 0, 0⟩).data_transmitted ∧
     (step sampleTermWorker (Event.ready 0 true (WriteResult.wrote 3))).2.1
       = [Action.closeConnection] ∧
     (step (initWorker 1 0)
        (Event.control (ReadResult.byte 98) SocketResult.ok ConnectResult.success)).1.largs.thread_flags_terminating = true ∧
     (step (initWorker 1 0)
        (Event.control (ReadResult.byte 98) SocketResult.ok ConnectResult.success)).1.largs.control_active = false) :=
  ⟨by decide, by decide, by decide, by decide,
   terminated_worker_tears_down sampleTermWorker
     (Event.ready 0 true (WriteResult.wrote 3)) 0 true (WriteResult.wrote 3)
     [Event.ready 0 true (WriteResult.wrote 3),
      Event.control (ReadResult.byte 99) SocketResult.ok ConnectResult.success]
     (initWorker 1 0) SocketResult.ok ConnectResult.success
     (by decide) (by decide) (by decide) (by decide)⟩

/-- C6: when the non-blocking connect fails with an error other than the
in-progress indication, the chosen address's failures counter is
incremented, no connection is allocated and the open-connection count is
unchanged, and the emitted effects are exactly a close of the socket,
preceded by a log entry exactly when this is the first failure recorded
against that address. -/
theorem connect_error_abandons_attempt (largs : LoopArguments)
    (conns : List Conn) (e : Errno) (hn : 0 < largs.n_addrs)
    (hlen : largs.remote_stats.length = largs.n_addrs)
    (he : e ≠ Errno.EINPROGRESS) :
    (start_new_connection largs conns SocketResult.ok
        (ConnectResult.error e)).2.1 = conns ∧
    (start_new_connection largs conns SocketResult.ok
        (ConnectResult.error e)).1.open_connections
      = largs.open_connections ∧
    (statAt (start_new_connection largs conns SocketResult.ok
          (ConnectResult.error e)).1.remote_stats
        (pick_remote_address largs.remote_stats largs.n_addrs
          largs.address_offset).1).connection_failures
      = (statAt largs.remote_stats
          (pick_remote_address largs.remote_stats largs.n_addrs
            largs.address_offset).1).connection_failures + 1 ∧
    (start_new_connection largs conns SocketResult.ok
        (ConnectResult.error e)).2.2
      = (if (statAt largs.remote_stats
              (pick_remote_address largs.remote_stats largs.n_addrs
                largs.address_offset).1).connection_failures + 1 = 1
         then [Action.logFirstFailure
                (pick_remote_address largs.remote_stats largs.n_addrs
                  largs.address_offset).1]
         else []) ++ [Action.closeSocket] := by
  have hoff : (pick_remote_address largs.remote_stats largs.n_addrs
      largs.address_offset).1 < largs.n_addrs :=
    pickScan_fst_lt largs.remote_stats largs.n_addrs hn largs.n_addrs
      largs.address_offset
  set off := (pick_remote_address largs.remote_stats largs.n_addrs
    largs.address_offset).1 with hoffdef
  have hofflen : off < largs.remote_stats.length := by omega
  have hofflen' : off < (bumpAttempts largs.remote_stats off).length := by
    rw [bumpAttempts_length]
    exact hofflen
  have hfail :
      (statAt (bumpFailures (bumpAttempts largs.remote_stats off) off)
          off).connection_failures
        = (statAt largs.remote_stats off).connection_failures + 1 := by
    obtain ⟨-, hf2⟩ :=
      statAt_bumpFailures_self (bumpAttempts largs.remote_stats off) off hofflen'
    obtain ⟨-, hf1⟩ := statAt_bumpAttempts_self largs.remote_stats off hofflen
    rw [hf2, hf1]
  have hacts :
      (if (statAt (bumpFailures (bumpAttempts largs.remote_stats off) off)
            off).connection_failures = 1
       then [Action.logFirstFailure off] else []) ++ [Action.closeSocket]
      = (if (statAt largs.remote_stats off).connection_failures + 1 = 1
         then [Action.logFirstFailure off] else []) ++ [Action.closeSocket] := by
    rw [hfail]
  rcases e with _ | _ | _ | code
  · exact ⟨rfl, rfl, hfail, hacts⟩
  · exact ⟨rfl, rfl, hfail, hacts⟩
  · exact absurd rfl he
  · exact ⟨rfl, rfl, hfail, hacts⟩

/-- C6 witness: a connect refused with a generic errno against the sample
single-address worker (already at 2 recorded failures, so no log entry). -/
theorem connect_error_abandons_attempt_witness :
    0 < sampleArgs.n_addrs ∧
    sampleArgs.remote_stats.length = sampleArgs.n_addrs ∧
    Errno.other 111 ≠ Errno.EINPROGRESS ∧
    ((start_new_connection sampleArgs [] SocketResult.ok
        (ConnectResult.error (Errno.other 111))).2.1 = [] ∧
     (start_new_connection sampleArgs [] SocketResult.ok
        (ConnectResult.error (Errno.other 111))).1.open_connections = 0 ∧
     (statAt (start_new_connection sampleArgs [] SocketResult.ok
          (ConnectResult.error (Errno.other 111))).1.remote_stats
        0).connection_failures = 3 ∧
     (start_new_connection sampleArgs [] SocketResult.ok
        (ConnectResult.error (Errno.other 111))).2.2 = [Action.closeSocket]) := by
  have h := connect_error_abandons_attempt sampleArgs [] (Errno.other 111)
    (by decide) (by decide) (by decide)
  exact ⟨by decide, by decide, by decide, h.1, h.2.1, h.2.2.1, h.2.2.2⟩

/-- C7: socket-creation failure with `ENFILE` reports the descriptor limit
and terminates the process with status 1; socket-creation failure with any
other errno abandons the attempt silently — no actions, no connection, and
no state change beyond the already-performed address selection and attempt
increment. -/
theorem socket_failure_paths (largs : LoopArguments) (conns : List Conn)
    (cr : ConnectResult) (e : Errno) (he : e ≠ Errno.ENFILE) :
    (start_new_connection largs conns (SocketResult.error Errno.ENFILE) cr).2.2
      = [Action.logFdLimit, Action.exitProcess 1] ∧
    start_new_connection largs conns (SocketResult.error e) cr
      = ({ largs with
            address_offset :=
              (pick_remote_address largs.remote_stats largs.n_addrs
                largs.address_offset).2
            remote_stats :=
              bumpAttempts largs.remote_stats
                (pick_remote_address largs.remote_stats largs.n_addrs
                  largs.address_offset).1 },
         conns, []) := by
  refine ⟨rfl, ?_⟩
  rcases e with _ | _ | _ | code
  · exact absurd rfl he
  · rfl
  · rfl
  · rfl

/-- C7 witness: `ENFILE` versus a generic socket-creation errno on the
sample single-address worker. -/
theorem socket_failure_paths_witness :
    Errno.other 24 ≠ Errno.ENFILE ∧
    ((start_new_connection sampleArgs []
        (SocketResult.error Errno.ENFILE) ConnectResult.success).2.2
      = [Action.logFdLimit, Action.exitProcess 1] ∧
     start_new_connection sampleArgs []
        (SocketResult.error (Errno.other 24)) ConnectResult.success
      = ({ sampleArgs with address_offset := 1, remote_stats := [⟨6, 2⟩] },
         [], [])) := by
  have h := socket_failure_paths sampleArgs [] ConnectResult.success
    (Errno.other 24) (by decide)
  exact ⟨by decide, h.1, h.2⟩

/-- C8 counterexample: at the reachable state
`write_offset = sample_data_size` (the state left by a full-chunk write),
the chunk computation wraps the stored offset to `0` in place before the
failing write, so a non-broken-pipe write error does change the
Connection's write offset: it becomes `0`, not the prior `3`. -/
theorem write_error_wraps_offset_counterexample :
    connection_cb sampleArgs [⟨3, 5, 0⟩] 0 true
        (WriteResult.error (Errno.other 104))
      ≠ (sampleArgs, [⟨3, 5, 0⟩], [], []) ∧
    ((connection_cb sampleArgs [⟨3, 5, 0⟩] 0 true
        (WriteResult.error (Errno.other 104))).2.1.getD 0
          ⟨0, 0, 0⟩).write_offset = 0 ∧
    (⟨3, 5, 0⟩ : Conn).write_offset = sampleArgs.sample_data_size := by
  refine ⟨by decide, by decide, by decide⟩

/-- C8 (amended): in `connection_cb`, a write failing with any errno other
than broken-pipe changes nothing except the in-place wrap of the
Connection's write offset that the chunk computation performed before the
write: health counters, the bytes-sent counter, the open-connection count,
the aggregate byte counter, the actions and the wire bytes are all
untouched and the Connection stays registered for the next readiness
event; in particular, when the offset is strictly inside the payload (no
wrap pending) the state is exactly unchanged. -/
theorem write_error_only_wraps_offset (largs : LoopArguments)
    (conns : List Conn) (conn : Conn) (i : Nat) (e : Errno)
    (he : e ≠ Errno.EPIPE)
    (hterm : largs.thread_flags_terminating = false)
    (hcv : conns[i]? = some conn) :
    connection_cb largs conns i true (WriteResult.error e)
      = (largs,
         conns.set i
           { conn with
             write_offset :=
               (largest_contiguous_chunk largs.sample_data_size
                   conn.write_offset).2.2 },
         [], []) ∧
    (conn.write_offset < largs.sample_data_size →
      connection_cb largs conns i true (WriteResult.error e)
        = (largs, conns, [], [])) := by
  obtain ⟨hi, hconn⟩ := List.getElem?_eq_some.mp hcv
  have hfirst : connection_cb largs conns i true (WriteResult.error e)
      = (largs,
         conns.set i
           { conn with
             write_offset :=
               (largest_contiguous_chunk largs.sample_data_size
                   conn.write_offset).2.2 },
         [], []) := by
    rcases e with _ | _ | _ | code
    · simp [connection_cb, hcv, hterm]
    · exact absurd rfl he
    · simp [connection_cb, hcv, hterm]
    · simp [connection_cb, hcv, hterm]
  refine ⟨hfirst, ?_⟩
  intro hlt
  rw [hfirst]
  have hc0 : largs.sample_data_size - conn.write_offset ≠ 0 := by omega
  have hch : (largest_contiguous_chunk largs.sample_data_size
      conn.write_offset).2.2 = conn.write_offset := by
    simp [largest_contiguous_chunk, hc0]
  rw [hch]
  have hself : ({ conn with write_offset := conn.write_offset } : Conn)
      = conn := rfl
  rw [hself, ← hconn, set_getElem_self conns i hi]

/-- C8 witness: a connection-reset-style errno on a registered connection
mid-payload (offset `1` of `3`, so no wrap is pending): the stored offset
and everything else are exactly unchanged. -/
theorem write_error_only_wraps_offset_witness :
    Errno.other 104 ≠ Errno.EPIPE ∧
    sampleArgs.thread_flags_terminating = false ∧
    ([(⟨1, 2, 0⟩ : Conn)][0]? = some ⟨1, 2, 0⟩) ∧
    (1 : Nat) < 3 ∧
    connection_cb sampleArgs [⟨1, 2, 0⟩] 0 true
        (WriteResult.error (Errno.other 104))
      = (sampleArgs, [⟨1, 2, 0⟩], [], []) := by
  have h := write_error_only_wraps_offset sampleArgs [⟨1, 2, 0⟩] ⟨1, 2, 0⟩ 0
    (Errno.other 104) (by decide) (by decide) (by decide)
  exact ⟨by decide, by decide, by decide, by decide, h.2 (by decide)⟩

/-- C10: over any event sequence from engine start, a worker's
open-connection count equals the number of live connections it owns — it
is incremented exactly at allocation-and-registration in
`start_new_connection` and decremented exactly at the connection closes in
`connection_cb` — and it is never negative. -/
theorem open_connections_counts_live (n t : Nat) (tr : List Event) :
    (run (initWorker n t) tr).largs.open_connections
        = ((run (initWorker n t) tr).conns.length : Int) ∧
    0 ≤ (run (initWorker n t) tr).largs.open_connections := by
  have h := countOk_run tr (initWorker n t) (countOk_init n t)
  refine ⟨h, ?_⟩
  rw [h]
  exact Int.natCast_nonneg _

end Tcpkali
